import Mathlib

/-!
Verification of the daily-earnings ledger.

Shallow embedding of the in-memory earnings ledger implemented in
`src/daily_earning/app/(tabs)/index.tsx` (the extended variant with sorting
and pagination) and the basic variant in `src/unnamed/part_000`.

Modelling conventions:
* JavaScript numbers are modelled as rationals (`ℚ`); the inputs admitted by
  the validated entry form are finite decimal literals, which `ℚ` represents
  exactly.
* `parseFloat` is modelled for decimal notation (optional leading whitespace,
  optional sign, digits with optional fraction, optional exponent), returning
  `none` where JavaScript returns `NaN`.  The special literal `Infinity` is
  not modelled; it cannot arise in the properties checked here.
* `String(Date.now())` is modelled by `toString` applied to an injected clock
  value `now : ℕ` (milliseconds), as the spec's design notes prescribe.
* `localeCompare` on fixed-width `YYYY-MM-DD` strings is modelled by the
  lexicographic (code-point) order on `String`, which agrees with it on the
  ASCII digits and hyphen the format uses.
* `Array.prototype.sort` with a consistent comparator is a stable sort; it is
  modelled by `List.mergeSort` with the `≤`-test induced by the comparator.
-/

namespace DailyEarnings

/-- The sole entity of the data model (spec §3): a ledger record. -/
structure Earning where
  id : String
  amount : ℚ
  date : String
  note : String
deriving DecidableEq, Repr

/-! ## Model of `parseFloat` (JavaScript builtin used by `handleAddOrSave`) -/

/-- Split a character list into its longest prefix of decimal digits and the
rest. -/
def takeDigits : List Char → List Char × List Char
  | [] => ([], [])
  | c :: cs =>
    if c.isDigit then
      let (ds, rest) := takeDigits cs
      (c :: ds, rest)
    else
      ([], c :: cs)

/-- The natural number denoted by a list of decimal digits. -/
def digitsToNat (ds : List Char) : ℕ :=
  ds.foldl (fun n c => 10 * n + (c.toNat - 48)) 0

/-- Parse an optionally signed digit run for the exponent part; an exponent
marker not followed by digits contributes exponent `0` (JavaScript parses the
longest valid numeric prefix, so `"1e"` parses as `1`). -/
def parseSignedDigits (cs : List Char) : ℤ :=
  match cs with
  | '+' :: rest =>
    let (ds, _) := takeDigits rest
    if ds.isEmpty then 0 else (digitsToNat ds : ℤ)
  | '-' :: rest =>
    let (ds, _) := takeDigits rest
    if ds.isEmpty then 0 else -(digitsToNat ds : ℤ)
  | _ =>
    let (ds, _) := takeDigits cs
    if ds.isEmpty then 0 else (digitsToNat ds : ℤ)

/-- Exponent denoted after the mantissa: `e`/`E` followed by signed digits. -/
def parseExponent (cs : List Char) : ℤ :=
  match cs with
  | 'e' :: rest => parseSignedDigits rest
  | 'E' :: rest => parseSignedDigits rest
  | _ => 0

/-- Scale a rational by a power of ten given as an integer exponent. -/
def scalePow10 (q : ℚ) (e : ℤ) : ℚ :=
  if 0 ≤ e then q * (10 : ℚ) ^ e.toNat else q / (10 : ℚ) ^ (-e).toNat

/-- Unsigned decimal literal: digits, optional `.` and more digits, optional
exponent.  `none` when there is no digit at all (JavaScript `NaN`). -/
def parseFloatCore (cs : List Char) : Option ℚ :=
  let (ip, r1) := takeDigits cs
  let (fp, r2) :=
    match r1 with
    | '.' :: rest => takeDigits rest
    | _ => ([], r1)
  if ip.isEmpty ∧ fp.isEmpty then none
  else
    let mantissa : ℚ := (digitsToNat ip : ℚ) + (digitsToNat fp : ℚ) / (10 : ℚ) ^ fp.length
    some (scalePow10 mantissa (parseExponent r2))

/-- Model of JavaScript `parseFloat` on decimal notation: skip leading
whitespace, read an optional sign and then the longest valid decimal literal
prefix; `none` models `NaN`. -/
def parseFloat (s : String) : Option ℚ :=
  let cs := s.data.dropWhile Char.isWhitespace
  match cs with
  | '-' :: rest => (parseFloatCore rest).map Neg.neg
  | '+' :: rest => parseFloatCore rest
  | _ => parseFloatCore cs

/-! ## Entry form: `handleAddOrSave` (index.tsx lines 35–51) -/

/-- Outcome of one press of Add/Save: the record emitted to the owner via
`onAdd` (if any) and whether the validation alert was shown. -/
structure SubmitResult where
  emitted : Option Earning
  alerted : Bool
deriving DecidableEq, Repr

/-- `String(Date.now())`: the id generated for a fresh record, from the
injected clock value in milliseconds. -/
def newIdString (now : ℕ) : String := toString now

/--
`handleAddOrSave` from the entry form: parse the amount string; on `NaN` or a
value ≤ 0 show the alert and emit nothing; otherwise emit the payload
`{ id: editing?.id ?? String(Date.now()), amount: parsed, date, note: note.trim() }`.
-/
def handleAddOrSave (editing : Option Earning) (now : ℕ)
    (amount date note : String) : SubmitResult :=
  match parseFloat amount with
  | none => ⟨none, true⟩
  | some parsed =>
    if parsed ≤ 0 then ⟨none, true⟩
    else
      ⟨some { id := match editing with
                    | some e => e.id
                    | none => newIdString now
              amount := parsed
              date := date
              note := note.trim },
       false⟩

/-- The failure condition of the only validated failure mode: the amount
string parses to `NaN` (here `none`) or to a value ≤ 0
(`Number.isNaN(parsed) || parsed <= 0`). -/
def invalidAmount (a : String) : Prop :=
  match parseFloat a with
  | none => True
  | some v => v ≤ 0

/-! ## Ledger owner: reconcile and delete (index.tsx lines 171–184) -/

/-- `handleAdd`, the reconciler: if some record already has the incoming id,
replace every record with that id in place; otherwise prepend the incoming
record. -/
def handleAdd (item : Earning) (prev : List Earning) : List Earning :=
  if prev.any (fun p => p.id == item.id) then
    prev.map (fun p => if p.id == item.id then item else p)
  else
    item :: prev

/-- `handleDelete`: keep exactly the records whose id differs from the given
one (`p.filter((x) => x.id !== id)`). -/
def handleDelete (i : String) (p : List Earning) : List Earning :=
  p.filter (fun x => x.id != i)

/-! ## Ledger view: total and its display (index.tsx lines 102, 143) -/

/-- `Number(e.amount || 0)`: a falsy amount (`0`) is coerced to `0`; on the
rationals this is the identity, proved below. -/
def orZero (q : ℚ) : ℚ := if q = 0 then 0 else q

/-- The total shown by `EarningsList`:
`earnings.reduce((s, e) => s + Number(e.amount || 0), 0)`. -/
def totalOf (earnings : List Earning) : ℚ :=
  earnings.foldl (fun s e => s + orZero e.amount) 0

/-- Two-digit zero padding for the fractional part of a fixed-point display. -/
def pad2 (n : ℕ) : String :=
  if n < 10 then "0" ++ toString n else toString n

/-- Model of JavaScript `Number.prototype.toFixed(2)`: round the value times
100 to the nearest integer (ties towards the larger integer, as ECMA-262
specifies) and print it with exactly two fractional digits. -/
def toFixed2 (q : ℚ) : String :=
  let r : ℤ := round (q * 100)
  (if r < 0 then "-" else "") ++ toString (r.natAbs / 100) ++ "." ++ pad2 (r.natAbs % 100)

/-- The total line rendered by `EarningsList` for the sequence it is given. -/
def totalDisplay (earnings : List Earning) : String :=
  "Total: ₹" ++ toFixed2 (totalOf earnings)

/-! ## Sorting and pagination state (index.tsx lines 156–233) -/

/-- The active sort key: `'date'` or `'amount'`. -/
inductive SortKey
  | date
  | amount
deriving DecidableEq, Repr

/-- The sort direction: `'asc'` or `'desc'`. -/
inductive SortDir
  | asc
  | desc
deriving DecidableEq, Repr

/-- `d === 'asc' ? 'desc' : 'asc'`. -/
def flipDir : SortDir → SortDir
  | .asc => .desc
  | .desc => .asc

/--
The `≤`-test induced by the comparator passed to `arr.sort` in the `sorted`
memo: `cmpLe k d a b` holds exactly when the comparator returns a value ≤ 0 on
`(a, b)`, i.e. when the sort may keep `a` before `b`.  For `date` the
comparator is `localeCompare` (lexicographic on `YYYY-MM-DD`), for `amount` it
is the numeric difference of `Number(x.amount || 0)`.
-/
def cmpLe (k : SortKey) (d : SortDir) (a b : Earning) : Bool :=
  match k, d with
  | .date, .asc => decide (a.date ≤ b.date)
  | .date, .desc => decide (b.date ≤ a.date)
  | .amount, .asc => decide (orZero a.amount ≤ orZero b.amount)
  | .amount, .desc => decide (orZero b.amount ≤ orZero a.amount)

/-- The ordering on records that the active sort key and direction call for;
this is the specification-facing reading of the comparator, phrased directly
on the record fields. -/
def keyOrder (k : SortKey) (d : SortDir) (a b : Earning) : Prop :=
  match k, d with
  | .date, .asc => a.date ≤ b.date
  | .date, .desc => b.date ≤ a.date
  | .amount, .asc => a.amount ≤ b.amount
  | .amount, .desc => b.amount ≤ a.amount

/-- Whether two records compare equal on the given sort key. -/
def sameKey (k : SortKey) (a b : Earning) : Bool :=
  match k with
  | .date => a.date == b.date
  | .amount => decide (a.amount = b.amount)

/-- The state held by the `App` component of the extended variant. -/
structure AppState where
  earnings : List Earning
  editing : Option Earning
  page : ℕ
  pageSize : ℕ
  sortBy : SortKey
  sortDir : SortDir
deriving Repr

/-- The `sorted` memo: a sorted copy of the canonical list (the spread
`[...earnings]` followed by the stable `Array.prototype.sort`), leaving the
canonical list itself untouched. -/
def sortedView (st : AppState) : List Earning :=
  st.earnings.mergeSort (cmpLe st.sortBy st.sortDir)

/-- `Math.max(1, Math.ceil(sorted.length / pageSize))`.  (For the page sizes
the UI offers, `pageSize` is one of 5, 10, 20, hence positive.) -/
def totalPages (st : AppState) : ℕ :=
  max 1 ⌈((sortedView st).length : ℚ) / (st.pageSize : ℚ)⌉₊

/-- `Math.min(totalPages, Math.max(1, page))`: the clamped page actually
used for display and slicing. -/
def currentPage (st : AppState) : ℕ :=
  min (totalPages st) (max 1 st.page)

/-- `Array.prototype.slice(s, e)` on an index range inside the list. -/
def jsSlice (l : List Earning) (s e : ℕ) : List Earning :=
  (l.drop s).take (e - s)

/-- The `paginated` memo: `sorted.slice(start, start + pageSize)` with
`start = (currentPage - 1) * pageSize`. -/
def paginated (st : AppState) : List Earning :=
  jsSlice (sortedView st) ((currentPage st - 1) * st.pageSize)
    ((currentPage st - 1) * st.pageSize + st.pageSize)

/-! ## State transitions of the extended `App` -/

/--
The `useEffect` with dependency array `[earnings.length, pageSize, sortBy,
sortDir]` (index.tsx lines 166–169): after a render in which any of those
dependencies changed relative to the previous state, `page` is reset to 1.
-/
def applyEffect (prev st : AppState) : AppState :=
  if st.earnings.length = prev.earnings.length ∧ st.pageSize = prev.pageSize ∧
      st.sortBy = prev.sortBy ∧ st.sortDir = prev.sortDir then
    st
  else
    { st with page := 1 }

/-- One press of Add/Save: run the entry form's `handleAddOrSave` against the
current editing state; if a record is emitted, reconcile it into the ledger
with `handleAdd` and clear editing.  The same reconciler runs whether the
press was an Add (`editing = none`) or a Save (`editing = some r`). -/
def submit (st : AppState) (now : ℕ) (amount date note : String) : AppState :=
  match (handleAddOrSave st.editing now amount date note).emitted with
  | none => st
  | some r => applyEffect st { st with earnings := handleAdd r st.earnings, editing := none }

/-- A confirmed delete of the record with the given id. -/
def deleteOp (st : AppState) (i : String) : AppState :=
  applyEffect st { st with earnings := handleDelete i st.earnings }

/-- `toggleSort(by)`: re-selecting the active key flips the direction;
selecting the other key activates it with direction descending. -/
def toggleSort (k : SortKey) (st : AppState) : AppState :=
  applyEffect st
    (if st.sortBy = k then
      { st with sortDir := flipDir st.sortDir }
    else
      { st with sortBy := k, sortDir := .desc })

/-- `changePageSize(size)`: set the page size and jump back to page 1. -/
def changePageSize (sz : ℕ) (st : AppState) : AppState :=
  applyEffect st { st with pageSize := sz, page := 1 }

/-- `nextPage()`: advance but never beyond the last page. -/
def nextPage (st : AppState) : AppState :=
  { st with page := min (totalPages st) (st.page + 1) }

/-- `prevPage()`: go back but never below page 1. -/
def prevPage (st : AppState) : AppState :=
  { st with page := max 1 (st.page - 1) }

/-! ## Ledger-only operation sequences (for the id-uniqueness invariant) -/

/-- The operations that ever mutate the ledger list: reconciliation of an
emitted record (`handleAdd`, serving insert and update alike) and deletion by
id (`handleDelete`). -/
inductive LedgerOp
  | reconcile (item : Earning)
  | remove (i : String)

/-- Apply one ledger operation. -/
def applyLedgerOp (l : List Earning) : LedgerOp → List Earning
  | .reconcile item => handleAdd item l
  | .remove i => handleDelete i l

/-- Run a sequence of ledger operations from the empty ledger the process
starts with. -/
def runLedgerOps (ops : List LedgerOp) : List Earning :=
  ops.foldl applyLedgerOp []

/-! ## Helper lemmas shared between claims -/

/-- `Number(q || 0)` is the identity on the rationals. -/
theorem orZero_eq (q : ℚ) : orZero q = q := by
  unfold orZero; split <;> simp_all

/-- The Bool-equality branch of the reconciler agrees with its propositional
reading. -/
theorem ite_beq_id (item p : Earning) :
    (if p.id == item.id then item else p) = (if p.id = item.id then item else p) := by
  by_cases h : p.id = item.id <;> simp [h]

/-- When the incoming id is present, the reconciler keeps the length and
rewrites each position by the replace-if-matching rule. -/
theorem handleAdd_replace (item : Earning) (prev : List Earning)
    (hex : ∃ p ∈ prev, p.id = item.id) :
    (handleAdd item prev).length = prev.length ∧
    ∀ i : ℕ, (handleAdd item prev)[i]? =
      (prev[i]?).map fun p => if p.id = item.id then item else p := by
  have hany : prev.any (fun p => p.id == item.id) = true := by
    simpa [List.any_eq_true] using hex
  unfold handleAdd
  rw [if_pos hany]
  refine ⟨List.length_map _ _, ?_⟩
  intro i
  rw [List.getElem?_map]
  cases hpi : prev[i]? with
  | none => rfl
  | some p => simp [ite_beq_id item p]

/-- When the incoming id is absent, the reconciler prepends. -/
theorem handleAdd_prepend (item : Earning) (prev : List Earning)
    (hno : ∀ p ∈ prev, p.id ≠ item.id) :
    handleAdd item prev = item :: prev := by
  have hany : ¬ prev.any (fun p => p.id == item.id) = true := by
    simpa [List.any_eq_true] using hno
  unfold handleAdd
  rw [if_neg hany]

/-- Whatever the editing state was, an emitted record reaches the ledger
through `handleAdd`. -/
theorem submit_earnings_eq (st : AppState) (now : ℕ) (a d n : String) (r : Earning)
    (hem : (handleAddOrSave st.editing now a d n).emitted = some r) :
    (submit st now a d n).earnings = handleAdd r st.earnings := by
  simp only [submit, hem]
  unfold applyEffect
  split <;> rfl

/-- A submit whose validation failed leaves the whole app state unchanged. -/
theorem submit_of_emitted_none (st : AppState) (now : ℕ) (a d n : String)
    (h : (handleAddOrSave st.editing now a d n).emitted = none) :
    submit st now a d n = st := by
  simp only [submit, h]

/-- A record emitted while no record was being edited carries the
timestamp-derived id. -/
theorem emitted_id_of_editing_none (now : ℕ) (a d n : String) (r : Earning)
    (hem : (handleAddOrSave none now a d n).emitted = some r) :
    r.id = newIdString now := by
  unfold handleAddOrSave at hem
  cases h : parseFloat a with
  | none => rw [h] at hem; exact absurd hem (by simp)
  | some v =>
    rw [h] at hem
    by_cases hv : v ≤ 0
    · simp [hv] at hem
    · simp [hv] at hem
      rw [← hem]

/-- Replacing by an id that is already present leaves the id column of the
ledger unchanged. -/
theorem ids_handleAdd_of_any (item : Earning) (prev : List Earning)
    (h : prev.any (fun p => p.id == item.id) = true) :
    (handleAdd item prev).map (fun e => e.id) = prev.map (fun e => e.id) := by
  unfold handleAdd
  rw [if_pos h, List.map_map]
  apply List.map_congr_left
  intro p _
  by_cases hid : p.id = item.id <;> simp [hid]

/-- Reconciliation preserves distinctness of the id column. -/
theorem nodup_ids_handleAdd (item : Earning) (prev : List Earning)
    (h : (prev.map (fun e => e.id)).Nodup) :
    ((handleAdd item prev).map (fun e => e.id)).Nodup := by
  by_cases hany : prev.any (fun p => p.id == item.id) = true
  · rw [ids_handleAdd_of_any item prev hany]
    exact h
  · unfold handleAdd
    rw [if_neg hany]
    refine List.nodup_cons.mpr ⟨?_, h⟩
    intro hmem
    apply hany
    rw [List.any_eq_true]
    obtain ⟨p, hp, hpid⟩ := List.mem_map.mp hmem
    exact ⟨p, hp, by simp [hpid]⟩

/-- Deletion preserves distinctness of the id column. -/
theorem nodup_ids_handleDelete (i : String) (l : List Earning)
    (h : (l.map (fun e => e.id)).Nodup) :
    ((handleDelete i l).map (fun e => e.id)).Nodup :=
  ((List.filter_sublist l).map (fun e => e.id)).nodup h

/-- The fold computing the total equals the sum of the amounts, for any
starting accumulator. -/
theorem totalOf_go (l : List Earning) :
    ∀ s : ℚ, l.foldl (fun s e => s + orZero e.amount) s = s + (l.map (fun e => e.amount)).sum := by
  induction l with
  | nil => intro s; simp
  | cons e rest ih =>
    intro s
    rw [List.foldl_cons, ih, List.map_cons, List.sum_cons, orZero_eq, add_assoc]

/-- The comparator's `≤`-test is transitive. -/
theorem cmpLe_trans (k : SortKey) (d : SortDir) (a b c : Earning)
    (hab : cmpLe k d a b = true) (hbc : cmpLe k d b c = true) : cmpLe k d a c = true := by
  cases k <;> cases d <;> simp [cmpLe] at hab hbc ⊢ <;>
    first
    | exact le_trans hab hbc
    | exact le_trans hbc hab

/-- The comparator's `≤`-test is total. -/
theorem cmpLe_total (k : SortKey) (d : SortDir) (a b : Earning) :
    (cmpLe k d a b || cmpLe k d b a) = true := by
  cases k <;> cases d <;> simp [cmpLe] <;> exact le_total _ _

/-- The comparator orders records exactly as the active key and direction
call for. -/
theorem keyOrder_of_cmpLe (k : SortKey) (d : SortDir) (a b : Earning)
    (h : cmpLe k d a b = true) : keyOrder k d a b := by
  cases k <;> cases d <;> simp [cmpLe, orZero_eq] at h <;> simpa [keyOrder] using h

/-- Two records with the same key compare as ties in either direction. -/
theorem cmpLe_of_sameKey (k : SortKey) (d : SortDir) (a0 a b : Earning)
    (ha : sameKey k a0 a = true) (hb : sameKey k a0 b = true) : cmpLe k d a b = true := by
  cases k <;> simp [sameKey] at ha hb <;> cases d <;>
    simp [cmpLe, orZero_eq, ← ha, ← hb]

/-- Ceiling of a rational division of naturals agrees with the rounded-up
natural division. -/
theorem natCeil_div_eq (n p : ℕ) (hp : 0 < p) :
    ⌈(n : ℚ) / (p : ℚ)⌉₊ = (n + p - 1) / p := by
  have hpq : (0 : ℚ) < (p : ℚ) := by exact_mod_cast hp
  rw [← Nat.ceilDiv_eq_add_pred_div]
  apply le_antisymm
  · rw [Nat.ceil_le, div_le_iff₀ hpq]
    have hnat : n ≤ p * (n ⌈/⌉ p) := by simpa using le_smul_ceilDiv hp (b := n)
    have : (n : ℚ) ≤ ((p : ℚ)) * ((n ⌈/⌉ p : ℕ) : ℚ) := by exact_mod_cast hnat
    linarith [this]
  · rw [ceilDiv_le_iff_le_smul hp, smul_eq_mul]
    have hle : (n : ℚ) ≤ (⌈(n : ℚ) / (p : ℚ)⌉₊ : ℚ) * p := by
      have := Nat.le_ceil ((n : ℚ) / (p : ℚ))
      rwa [div_le_iff₀ hpq] at this
    have : (n : ℚ) ≤ ((p * ⌈(n : ℚ) / (p : ℚ)⌉₊ : ℕ) : ℚ) := by
      push_cast
      linarith [hle]
    exact_mod_cast this

/-! ## The claims -/

/--
C1: a record emitted to the reconciler with id `k` replaces the record at its
existing position when some record with id `k` is present (length and all
positions preserved; every non-matching position keeps its record), and is
prepended otherwise (length grows by exactly one); and the same reconciler
(`handleAdd`) is applied by the owner whatever the editing state of the
submit was, so the rule for Add and Save is one and the same.
-/
theorem claim_C1_reconcile (item : Earning) (prev : List Earning) :
    ((∃ p ∈ prev, p.id = item.id) →
      (handleAdd item prev).length = prev.length ∧
      ∀ i : ℕ, (handleAdd item prev)[i]? =
        (prev[i]?).map fun p => if p.id = item.id then item else p) ∧
    ((∀ p ∈ prev, p.id ≠ item.id) →
      handleAdd item prev = item :: prev ∧
      (handleAdd item prev).length = prev.length + 1) ∧
    (∀ (st : AppState) (now : ℕ) (a d n : String) (r : Earning),
      (handleAddOrSave st.editing now a d n).emitted = some r →
      (submit st now a d n).earnings = handleAdd r st.earnings) := by
  refine ⟨fun hex => handleAdd_replace item prev hex, fun hno => ?_, ?_⟩
  · rw [handleAdd_prepend item prev hno]
    exact ⟨rfl, by simp⟩
  · intro st now a d n r hem
    exact submit_earnings_eq st now a d n r hem

/-- C1 witness: a save over an existing id keeps the ledger size; an add of a
new id prepends. -/
theorem claim_C1_witness :
    (handleAdd ⟨"a", 1, "2024-01-02", ""⟩ [⟨"a", 2, "2024-01-01", ""⟩]).length = 1 ∧
    handleAdd ⟨"b", 1, "2024-01-02", ""⟩ [⟨"a", 2, "2024-01-01", ""⟩] =
      [⟨"b", 1, "2024-01-02", ""⟩, ⟨"a", 2, "2024-01-01", ""⟩] := by
  have h1 := (claim_C1_reconcile ⟨"a", 1, "2024-01-02", ""⟩
    [⟨"a", 2, "2024-01-01", ""⟩]).1 ⟨⟨"a", 2, "2024-01-01", ""⟩, by simp, rfl⟩
  have h2 := (claim_C1_reconcile ⟨"b", 1, "2024-01-02", ""⟩
    [⟨"a", 2, "2024-01-01", ""⟩]).2.1 (by intro p hp; fin_cases hp; decide)
  exact ⟨h1.1, h2.1⟩

/--
C2: when the amount string is non-numeric or parses to a value ≤ 0, the
submit emits no record, shows the alert, and leaves the whole app state (in
particular the ledger) unchanged; for every other amount string exactly one
record is emitted and no alert is shown.
-/
theorem claim_C2_validation (st : AppState) (now : ℕ) (a d n : String) :
    (invalidAmount a →
      (handleAddOrSave st.editing now a d n).emitted = none ∧
      (handleAddOrSave st.editing now a d n).alerted = true ∧
      submit st now a d n = st) ∧
    (¬ invalidAmount a →
      (handleAddOrSave st.editing now a d n).alerted = false ∧
      ∃ r : Earning, (handleAddOrSave st.editing now a d n).emitted = some r) := by
  have main :
      (invalidAmount a →
        (handleAddOrSave st.editing now a d n).emitted = none ∧
        (handleAddOrSave st.editing now a d n).alerted = true) ∧
      (¬ invalidAmount a →
        (handleAddOrSave st.editing now a d n).alerted = false ∧
        ∃ r : Earning, (handleAddOrSave st.editing now a d n).emitted = some r) := by
    unfold invalidAmount handleAddOrSave
    cases h : parseFloat a with
    | none => simp
    | some v =>
      by_cases hv : v ≤ 0
      · simp [hv]
      · simp [hv]
  refine ⟨fun hinv => ?_, main.2⟩
  obtain ⟨he, ha⟩ := main.1 hinv
  exact ⟨he, ha, submit_of_emitted_none st now a d n he⟩

/-- C2 witness: `"abc"` is rejected without touching the state; `"7"` emits a
record. -/
theorem claim_C2_witness :
    (handleAddOrSave none 0 "abc" "2024-01-01" "").emitted = none ∧
    submit ⟨[], none, 1, 5, SortKey.date, SortDir.desc⟩ 0 "abc" "2024-01-01" "" =
      ⟨[], none, 1, 5, SortKey.date, SortDir.desc⟩ ∧
    ∃ r : Earning, (handleAddOrSave none 0 "7" "2024-01-01" "").emitted = some r := by
  have h1 := claim_C2_validation ⟨[], none, 1, 5, SortKey.date, SortDir.desc⟩ 0 "abc" "2024-01-01" ""
  have h2 := claim_C2_validation ⟨[], none, 1, 5, SortKey.date, SortDir.desc⟩ 0 "7" "2024-01-01" ""
  have hinv : invalidAmount "abc" := by
    unfold invalidAmount
    have : parseFloat "abc" = none := by with_unfolding_all rfl
    rw [this]
    trivial
  have hval : ¬ invalidAmount "7" := by
    unfold invalidAmount
    have : parseFloat "7" = some 7 := by with_unfolding_all rfl
    rw [this]
    norm_num
  obtain ⟨he, _, hs⟩ := h1.1 hinv
  exact ⟨he, hs, (h2.2 hval).2⟩

/--
C3 counterexample: the id generated for an Add is `String(Date.now())`, and
nothing prevents it from colliding with an id already in the ledger (two
submits in the same millisecond).  With a record of id `"100"` present and
the clock at 100 ms, a valid Add emits a record whose id `"100"` is NOT fresh,
and the ledger does not grow: the submit replaces the existing record, so the
claim as stated is false.
-/
theorem claim_C3_counterexample :
    (handleAddOrSave none 100 "7" "2024-01-02" "").emitted =
      some ⟨newIdString 100, 7, "2024-01-02", ""⟩ ∧
    newIdString 100 = "100" ∧
    (submit ⟨[⟨"100", 5, "2024-01-01", ""⟩], none, 1, 5, SortKey.date, SortDir.desc⟩
        100 "7" "2024-01-02" "").earnings =
      [⟨"100", 7, "2024-01-02", ""⟩] := by
  refine ⟨?_, ?_, ?_⟩ <;> with_unfolding_all rfl

/--
C3 amended: for every valid submit while `editing = none`, PROVIDED that the
generated id `String(now)` differs from every id already in the ledger (true
whenever no existing record was created in the same millisecond), the ledger
gains exactly one record, prepended, carrying that id, which is distinct from
every id already present.
-/
theorem claim_C3_fresh_insert (st : AppState) (now : ℕ) (a d n : String) (r : Earning)
    (hed : st.editing = none)
    (hem : (handleAddOrSave st.editing now a d n).emitted = some r)
    (hfresh : ∀ p ∈ st.earnings, p.id ≠ newIdString now) :
    r.id = newIdString now ∧
    (∀ p ∈ st.earnings, p.id ≠ r.id) ∧
    (submit st now a d n).earnings = r :: st.earnings ∧
    (submit st now a d n).earnings.length = st.earnings.length + 1 := by
  have hem' : (handleAddOrSave none now a d n).emitted = some r := by
    rw [← hed]; exact hem
  have hid := emitted_id_of_editing_none now a d n r hem'
  have hfr : ∀ p ∈ st.earnings, p.id ≠ r.id := by
    intro p hp
    rw [hid]
    exact hfresh p hp
  have hsub : (submit st now a d n).earnings = handleAdd r st.earnings :=
    submit_earnings_eq st now a d n r hem
  have hpre : handleAdd r st.earnings = r :: st.earnings :=
    handleAdd_prepend r st.earnings hfr
  rw [hsub, hpre]
  exact ⟨hid, hfr, rfl, by simp⟩

/-- C3 witness: with the clock at 100 ms and no record from that millisecond,
a valid Add prepends a record with the fresh id `"100"`. -/
theorem claim_C3_witness :
    (submit ⟨[⟨"50", 5, "2024-01-01", ""⟩], none, 1, 5, SortKey.date, SortDir.desc⟩
        100 "7" "2024-01-02" "").earnings =
      ⟨"100", 7, "2024-01-02", ""⟩ :: [⟨"50", 5, "2024-01-01", ""⟩] := by
  have h := claim_C3_fresh_insert
    ⟨[⟨"50", 5, "2024-01-01", ""⟩], none, 1, 5, SortKey.date, SortDir.desc⟩
    100 "7" "2024-01-02" "" ⟨"100", 7, "2024-01-02", ""⟩
    rfl (by with_unfolding_all rfl) (by intro p hp; fin_cases hp; with_unfolding_all decide)
  exact h.2.2.1

/--
C4: id uniqueness is an invariant of the ledger: starting from the empty
ledger, after any sequence of reconcile and delete operations no two records
share an id (the id column is `Nodup`).
-/
theorem claim_C4_id_uniqueness (ops : List LedgerOp) :
    ((runLedgerOps ops).map (fun e => e.id)).Nodup := by
  suffices h : ∀ (l : List Earning), (l.map (fun e => e.id)).Nodup →
      ((ops.foldl applyLedgerOp l).map (fun e => e.id)).Nodup by
    exact h [] (by simp)
  induction ops with
  | nil => intro l hl; simpa using hl
  | cons op rest ih =>
    intro l hl
    rw [List.foldl_cons]
    apply ih
    cases op with
    | reconcile item => exact nodup_ids_handleAdd item l hl
    | remove i => exact nodup_ids_handleDelete i l hl

/--
C5 amended: the total displayed by the Ledger View equals the sum of `amount`
over the sequence of earnings it is given, formatted to two decimal places;
in the extended variant that sequence is the currently displayed page slice
(the `App` passes `paginated` to `EarningsList`), not the full ledger.
-/
theorem claim_C5_total (l : List Earning) (st : AppState) :
    totalOf l = (l.map (fun e => e.amount)).sum ∧
    totalDisplay l = "Total: ₹" ++ toFixed2 ((l.map (fun e => e.amount)).sum) ∧
    totalDisplay (paginated st) =
      "Total: ₹" ++ toFixed2 (((paginated st).map (fun e => e.amount)).sum) := by
  have h : totalOf l = (l.map (fun e => e.amount)).sum := by
    unfold totalOf
    rw [totalOf_go l 0, zero_add]
  have h2 : totalOf (paginated st) = ((paginated st).map (fun e => e.amount)).sum := by
    unfold totalOf
    rw [totalOf_go (paginated st) 0, zero_add]
  exact ⟨h, by rw [totalDisplay, h], by rw [totalDisplay, h2]⟩

/--
C5 counterexample: in the extended variant the Ledger View is given the page
slice, so with six records of amount 1 and page size 5 the displayed total is
`5.00` while the full-ledger sum is `6.00`: the displayed total does not equal
the sum over the full ledger.
-/
theorem claim_C5_counterexample :
    totalDisplay (paginated ⟨[⟨"1", 1, "2024-01-01", ""⟩, ⟨"2", 1, "2024-01-02", ""⟩,
        ⟨"3", 1, "2024-01-03", ""⟩, ⟨"4", 1, "2024-01-04", ""⟩, ⟨"5", 1, "2024-01-05", ""⟩,
        ⟨"6", 1, "2024-01-06", ""⟩], none, 1, 5, SortKey.date, SortDir.desc⟩) =
      "Total: ₹5.00" ∧
    totalDisplay (⟨[⟨"1", 1, "2024-01-01", ""⟩, ⟨"2", 1, "2024-01-02", ""⟩,
        ⟨"3", 1, "2024-01-03", ""⟩, ⟨"4", 1, "2024-01-04", ""⟩, ⟨"5", 1, "2024-01-05", ""⟩,
        ⟨"6", 1, "2024-01-06", ""⟩], none, 1, 5, SortKey.date, SortDir.desc⟩ : AppState).earnings =
      "Total: ₹6.00" ∧
    totalDisplay (paginated ⟨[⟨"1", 1, "2024-01-01", ""⟩, ⟨"2", 1, "2024-01-02", ""⟩,
        ⟨"3", 1, "2024-01-03", ""⟩, ⟨"4", 1, "2024-01-04", ""⟩, ⟨"5", 1, "2024-01-05", ""⟩,
        ⟨"6", 1, "2024-01-06", ""⟩], none, 1, 5, SortKey.date, SortDir.desc⟩) ≠
      totalDisplay (⟨[⟨"1", 1, "2024-01-01", ""⟩, ⟨"2", 1, "2024-01-02", ""⟩,
        ⟨"3", 1, "2024-01-03", ""⟩, ⟨"4", 1, "2024-01-04", ""⟩, ⟨"5", 1, "2024-01-05", ""⟩,
        ⟨"6", 1, "2024-01-06", ""⟩], none, 1, 5, SortKey.date, SortDir.desc⟩ : AppState).earnings := by
  refine ⟨?_, ?_, ?_⟩ <;> with_unfolding_all decide

/--
C6: the derived sorted view is a permutation of the canonical list, it is
ordered by the active key in the active direction, and the sort is stable:
records that compare equal on the key appear in the view in exactly their
canonical relative order (their subsequence is preserved verbatim).  The view
is computed on a copy (`[...earnings]`), embedded here as a pure function, so
the canonical list itself is not modified.
-/
theorem claim_C6_sorted_view (st : AppState) :
    (sortedView st).Perm st.earnings ∧
    (sortedView st).Pairwise (keyOrder st.sortBy st.sortDir) ∧
    ∀ a0 : Earning, (sortedView st).filter (sameKey st.sortBy a0) =
      st.earnings.filter (sameKey st.sortBy a0) := by
  refine ⟨List.mergeSort_perm _ _, ?_, ?_⟩
  · exact (List.sorted_mergeSort (cmpLe_trans st.sortBy st.sortDir)
      (cmpLe_total st.sortBy st.sortDir) st.earnings).imp
      (fun h => keyOrder_of_cmpLe st.sortBy st.sortDir _ _ h)
  · intro a0
    set p := sameKey st.sortBy a0 with hp
    set c := st.earnings.filter p with hc
    have hpc : c.Pairwise (fun a b => cmpLe st.sortBy st.sortDir a b = true) := by
      apply List.pairwise_of_forall_mem_list
      intro a ha b hb
      exact cmpLe_of_sameKey st.sortBy st.sortDir a0 a b
        (List.of_mem_filter ha) (List.of_mem_filter hb)
    have hsub : c.Sublist (sortedView st) :=
      List.sublist_mergeSort (cmpLe_trans st.sortBy st.sortDir)
        (cmpLe_total st.sortBy st.sortDir) hpc (List.filter_sublist st.earnings)
    have hcp : c.filter p = c :=
      List.filter_eq_self.mpr (fun a ha => List.of_mem_filter ha)
    have hsub2 : c.Sublist ((sortedView st).filter p) := by
      rw [← hcp]
      exact hsub.filter p
    have hperm : ((sortedView st).filter p).Perm c :=
      (List.mergeSort_perm st.earnings (cmpLe st.sortBy st.sortDir)).filter p
    exact (hsub2.eq_of_length hperm.length_eq.symm).symm

/--
C7: for every app state with a positive page size (the UI offers 5, 10, 20),
the total number of pages is `ceil(n / p)` with minimum 1 where `n` is the
ledger size, and the current page used for display is clamped into
`[1, totalPages]`; since this holds of every state, it holds in particular
after every mutation (insert, update, delete, sort change, page-size change,
Prev/Next).
-/
theorem claim_C7_pagination (st : AppState) (hp : 0 < st.pageSize) :
    totalPages st = max 1 ((st.earnings.length + st.pageSize - 1) / st.pageSize) ∧
    1 ≤ currentPage st ∧
    currentPage st ≤ totalPages st := by
  refine ⟨?_, ?_, min_le_left _ _⟩
  · unfold totalPages sortedView
    rw [List.length_mergeSort, natCeil_div_eq st.earnings.length st.pageSize hp]
  · unfold currentPage
    exact le_min (le_max_left _ _) (le_max_left _ _)

/-- C7 witness: six records at page size 5 give two pages, and a stored page
of 9 is clamped into range. -/
theorem claim_C7_witness :
    0 < (5 : ℕ) ∧
    totalPages ⟨[⟨"1", 1, "2024-01-01", ""⟩, ⟨"2", 1, "2024-01-02", ""⟩,
        ⟨"3", 1, "2024-01-03", ""⟩, ⟨"4", 1, "2024-01-04", ""⟩, ⟨"5", 1, "2024-01-05", ""⟩,
        ⟨"6", 1, "2024-01-06", ""⟩], none, 9, 5, SortKey.date, SortDir.desc⟩ =
      max 1 ((6 + 5 - 1) / 5) ∧
    1 ≤ currentPage ⟨[⟨"1", 1, "2024-01-01", ""⟩, ⟨"2", 1, "2024-01-02", ""⟩,
        ⟨"3", 1, "2024-01-03", ""⟩, ⟨"4", 1, "2024-01-04", ""⟩, ⟨"5", 1, "2024-01-05", ""⟩,
        ⟨"6", 1, "2024-01-06", ""⟩], none, 9, 5, SortKey.date, SortDir.desc⟩ ∧
    currentPage ⟨[⟨"1", 1, "2024-01-01", ""⟩, ⟨"2", 1, "2024-01-02", ""⟩,
        ⟨"3", 1, "2024-01-03", ""⟩, ⟨"4", 1, "2024-01-04", ""⟩, ⟨"5", 1, "2024-01-05", ""⟩,
        ⟨"6", 1, "2024-01-06", ""⟩], none, 9, 5, SortKey.date, SortDir.desc⟩ ≤
      totalPages ⟨[⟨"1", 1, "2024-01-01", ""⟩, ⟨"2", 1, "2024-01-02", ""⟩,
        ⟨"3", 1, "2024-01-03", ""⟩, ⟨"4", 1, "2024-01-04", ""⟩, ⟨"5", 1, "2024-01-05", ""⟩,
        ⟨"6", 1, "2024-01-06", ""⟩], none, 9, 5, SortKey.date, SortDir.desc⟩ := by
  have h := claim_C7_pagination ⟨[⟨"1", 1, "2024-01-01", ""⟩, ⟨"2", 1, "2024-01-02", ""⟩,
    ⟨"3", 1, "2024-01-03", ""⟩, ⟨"4", 1, "2024-01-04", ""⟩, ⟨"5", 1, "2024-01-05", ""⟩,
    ⟨"6", 1, "2024-01-06", ""⟩], none, 9, 5, SortKey.date, SortDir.desc⟩ (by decide)
  exact ⟨by decide, h.1, h.2.1, h.2.2⟩

/--
C8: the displayed page slice is exactly the contiguous block of the sorted
list starting at index `(currentPage - 1) * pageSize` and of length at most
`pageSize`: its `i`-th element is the sorted list's element at index
`(currentPage - 1) * pageSize + i` for `i < pageSize`, and it has no element
beyond that.
-/
theorem claim_C8_page_slice (st : AppState) (i : ℕ) :
    (paginated st)[i]? =
      if i < st.pageSize then
        (sortedView st)[(currentPage st - 1) * st.pageSize + i]?
      else
        none := by
  unfold paginated jsSlice
  rw [Nat.add_sub_cancel_left, List.getElem?_take]
  split
  · rw [List.getElem?_drop]
  · rfl

/--
C9: toggling a sort key different from the active one activates it with
direction descending; toggling the active key keeps the key and flips the
direction (so the direction always changes).
-/
theorem claim_C9_sort_toggle (st : AppState) (k : SortKey) :
    (st.sortBy ≠ k →
      (toggleSort k st).sortBy = k ∧ (toggleSort k st).sortDir = SortDir.desc) ∧
    (st.sortBy = k →
      (toggleSort k st).sortBy = st.sortBy ∧
      (toggleSort k st).sortDir = flipDir st.sortDir ∧
      (toggleSort k st).sortDir ≠ st.sortDir) := by
  unfold toggleSort applyEffect
  constructor
  · intro hne
    rw [if_neg hne]
    split <;> exact ⟨rfl, rfl⟩
  · intro heq
    rw [if_pos heq]
    have hflip : flipDir st.sortDir ≠ st.sortDir := by
      cases st.sortDir <;> decide
    split <;> exact ⟨rfl, rfl, hflip⟩

/-- C9 witness: from (date, desc), toggling amount gives (amount, desc) and
toggling date flips to ascending. -/
theorem claim_C9_witness :
    (toggleSort SortKey.amount ⟨[], none, 1, 5, SortKey.date, SortDir.desc⟩).sortBy =
      SortKey.amount ∧
    (toggleSort SortKey.amount ⟨[], none, 1, 5, SortKey.date, SortDir.desc⟩).sortDir =
      SortDir.desc ∧
    (toggleSort SortKey.date ⟨[], none, 1, 5, SortKey.date, SortDir.desc⟩).sortDir =
      SortDir.asc := by
  have h1 := (claim_C9_sort_toggle ⟨[], none, 1, 5, SortKey.date, SortDir.desc⟩
    SortKey.amount).1 (by decide)
  have h2 := (claim_C9_sort_toggle ⟨[], none, 1, 5, SortKey.date, SortDir.desc⟩
    SortKey.date).2 rfl
  exact ⟨h1.1, h1.2, h2.2.1⟩

/--
C10: delete removes exactly the records whose id equals the given one — no
surviving record has that id, the result is a subsequence of the original
(every other record unchanged, in its original relative order), every record
keeps its exact multiplicity unless its id matches, and deleting an absent id
is a no-op.
-/
theorem claim_C10_delete_frame (l : List Earning) (i : String) :
    (∀ x ∈ handleDelete i l, x.id ≠ i) ∧
    (handleDelete i l).Sublist l ∧
    (∀ x : Earning, (handleDelete i l).count x = if x.id = i then 0 else l.count x) ∧
    ((∀ x ∈ l, x.id ≠ i) → handleDelete i l = l) := by
  refine ⟨?_, List.filter_sublist l, ?_, ?_⟩
  · intro x hx
    have := List.of_mem_filter hx
    simpa using this
  · intro x
    by_cases hx : x.id = i
    · rw [if_pos hx]
      rw [List.count_eq_zero]
      intro hmem
      have := List.of_mem_filter hmem
      simp [hx] at this
    · rw [if_neg hx]
      exact List.count_filter (by simpa using hx)
  · intro hall
    apply List.filter_eq_self.mpr
    intro x hx
    simpa using hall x hx

/-- C10 witness: deleting a present id removes exactly that record; deleting
an absent id changes nothing. -/
theorem claim_C10_witness :
    handleDelete "a" [⟨"a", 2, "2024-01-01", ""⟩, ⟨"b", 3, "2024-01-02", ""⟩] =
      [⟨"b", 3, "2024-01-02", ""⟩] ∧
    handleDelete "zzz" [⟨"a", 2, "2024-01-01", ""⟩, ⟨"b", 3, "2024-01-02", ""⟩] =
      [⟨"a", 2, "2024-01-01", ""⟩, ⟨"b", 3, "2024-01-02", ""⟩] := by
  have h2 := (claim_C10_delete_frame
    [⟨"a", 2, "2024-01-01", ""⟩, ⟨"b", 3, "2024-01-02", ""⟩] "zzz").2.2.2
    (by intro x hx; fin_cases hx <;> decide)
  refine ⟨?_, h2⟩
  with_unfolding_all decide

end DailyEarnings
